import Mathlib

/-!
Verification model of `hostelnotifier.py` (EasWay/hostelcheck).

The page text is modelled as `List Char`.  Python string operations used by
the program (`str.lower`, `str.upper`, `str.capitalize`, the `in` substring
operator, `str.find`, slicing and `str.strip`) are embedded below.  Case
mapping covers ASCII together with the one-to-many uppercase and title-case
expansions of the German sharp s (Python `str.upper` maps it to `SS`,
`str.title` to `Ss`), the behaviour the keyword-variation search turns on;
other non-ASCII letters are case fixed points here.  The SHA-256
fingerprint (`compute_hash`, an external library call) is an abstract
parameter `hash : List Char → List Char` of the cycle function.
-/

set_option maxRecDepth 4000

/-- ASCII uppercase/lowercase letter pairs, used to model Python case mapping. -/
def casePairs : List (Char × Char) :=
  [('A','a'), ('B','b'), ('C','c'), ('D','d'), ('E','e'), ('F','f'), ('G','g'),
   ('H','h'), ('I','i'), ('J','j'), ('K','k'), ('L','l'), ('M','m'), ('N','n'),
   ('O','o'), ('P','p'), ('Q','q'), ('R','r'), ('S','s'), ('T','t'), ('U','u'),
   ('V','v'), ('W','w'), ('X','x'), ('Y','y'), ('Z','z')]

/-- ASCII model of Python `str.lower` on a single character. -/
def lowerChar (c : Char) : Char :=
  ((casePairs.find? (fun p => p.1 == c)).map Prod.snd).getD c

/-- One-to-one part of the Python `str.upper` character mapping (ASCII). -/
def upperChar (c : Char) : Char :=
  ((casePairs.find? (fun p => p.2 == c)).map Prod.fst).getD c

/-- Model of Python `str.lower`.  On the modelled alphabet `str.lower` maps
each character to one character (the sharp s is a lower-case fixed point). -/
def toLowerList (l : List Char) : List Char := l.map lowerChar

/-- Python `str.upper` on one character: Python case mapping is one-to-many,
uppercasing the sharp s to the two characters `SS`. -/
def upperCharStr (c : Char) : List Char :=
  if c = 'ß' then "SS".data else [upperChar c]

/-- Python `str.title` case on one character: the sharp s title-cases to the
two characters `Ss`. -/
def titleCharStr (c : Char) : List Char :=
  if c = 'ß' then "Ss".data else [upperChar c]

/-- Model of Python `str.upper`. -/
def toUpperList : List Char → List Char
  | [] => []
  | c :: cs => upperCharStr c ++ toUpperList cs

/-- Model of Python `str.capitalize`: first character title-cased, rest
lowered. -/
def capitalizeList : List Char → List Char
  | [] => []
  | c :: cs => titleCharStr c ++ toLowerList cs

/-- A character whose uppercase and title-case forms are the single
character `upperChar c`; holds for every ASCII character, fails for the
sharp s. -/
def singleCased (c : Char) : Prop :=
  upperCharStr c = [upperChar c] ∧ titleCharStr c = [upperChar c]

instance (c : Char) : Decidable (singleCased c) :=
  inferInstanceAs (Decidable (_ ∧ _))

/-- Does `n` occur at the start of `l`?  (Helper for the substring test.) -/
def leadsWith : List Char → List Char → Bool
  | [], _ => true
  | _ :: _, [] => false
  | a :: as, b :: bs => if a = b then leadsWith as bs else false

/-- Model of the Python substring operator `n in hay`. -/
def containsSub (n : List Char) : List Char → Bool
  | [] => leadsWith n []
  | c :: cs => leadsWith n (c :: cs) || containsSub n cs

/-- Model of Python `hay.find(n)` starting from index `i`. -/
def pyFindFrom (n : List Char) : List Char → Int → Int
  | [], i => if leadsWith n [] then i else -1
  | c :: cs, i => if leadsWith n (c :: cs) then i else pyFindFrom n cs (i + 1)

/-- Model of Python `hay.find(n)`: index of the first occurrence, `-1` if absent. -/
def pyFind (hay n : List Char) : Int := pyFindFrom n hay 0

/-- Characters stripped by Python `str.strip` (ASCII whitespace). -/
def isWsChar (c : Char) : Bool :=
  c = ' ' || c = '\t' || c = '\n' || c = '\r' || c = Char.ofNat 11 || c = Char.ofNat 12

/-- Model of Python `str.strip`. -/
def pyStrip (l : List Char) : List Char :=
  ((l.dropWhile isWsChar).reverse.dropWhile isWsChar).reverse

/-- The single-quote character, written by code point to keep sources plain. -/
def sqChar : Char := Char.ofNat 39

/-- The double-quote character, written by code point to keep sources plain. -/
def dqChar : Char := Char.ofNat 34

/-- The seven keyword surface variations of `hostelnotifier.py` lines 222-230,
in source order: exact, uppercase, capitalized, space-padded, angle-wrapped,
double-quoted, single-quoted. -/
def searchVariations (kw : List Char) : List (List Char) :=
  [kw,
   toUpperList kw,
   capitalizeList kw,
   ' ' :: (kw ++ [' ']),
   '>' :: (kw ++ ['<']),
   dqChar :: (kw ++ [dqChar]),
   sqChar :: (kw ++ [sqChar])]

/-- The loop of lines 232-237: each variation is lowercased and tested as a
substring of `text_lower`; the first match wins and is recorded as
`keyword_used` (initially the empty string). -/
def firstVariation (text_lower : List Char) : List (List Char) → Bool × List Char
  | [] => (false, [])
  | v :: vs =>
    if containsSub (toLowerList v) text_lower then (true, v)
    else firstVariation text_lower vs

/-- The whole variation search of lines 219-237:
returns `(found, keyword_used)`. -/
def keywordSearch (kw text_lower : List Char) : Bool × List Char :=
  firstVariation text_lower (searchVariations kw)

/-- Modelled from the spec: the single case-insensitive substring search that
the spec says the variation enumeration degenerates to (spec section 4.2 and
design note in section 9). -/
def specKeywordFound (kw text : List Char) : Bool :=
  containsSub (toLowerList kw) (toLowerList text)

example : keywordSearch "vacancy".data (toLowerList "New VACANCY posted".data) =
    (true, "vacancy".data) := by decide

example : keywordSearch "vacancy".data (toLowerList "no rooms".data) = (false, []) := by
  decide

/-!
## Monitor state and one check cycle

`StateDict` models the JSON state dictionary (`last_state.json`): both keys
may be absent.  `Mem` models the in-process mutable data of `main`: the local
variables `last_hash` (line 160) and `last_keyword_found` (line 161) and the
in-memory `state` dictionary.  The cycle also threads the durable file
contents (`disk`) and records every `save_state` call in order.
-/

/-- The state dictionary: keys `last_hash` and `last_keyword_found`, each
possibly absent. -/
structure StateDict where
  last_hash : Option (List Char)
  last_keyword_found : Option Bool
deriving DecidableEq, Repr

/-- In-process mutable data of `main`: locals `last_hash`,
`last_keyword_found` and the in-memory `state` dict. -/
structure Mem where
  last_hash : Option (List Char)
  last_keyword_found : Bool
  dict : StateDict
deriving DecidableEq, Repr

/-- Output of the change check, lines 199-213. -/
structure Step1Out where
  mem : Mem
  disk : StateDict
  saves : List StateDict
  content_changed : Bool
  reasons : List (List Char)
  samples : List (List Char)
deriving DecidableEq, Repr

/-- Output of the keyword check, lines 216-253. -/
structure Step2Out where
  found : Bool
  reasons : List (List Char)
  samples : List (List Char)
deriving DecidableEq, Repr

/-- Everything observable about one loop iteration of `main`. -/
structure CycleOut where
  mem : Mem
  disk : StateDict
  saves : List StateDict
  content_changed : Bool
  keyword_found : Bool
  changed : Bool
  reasons : List (List Char)
  samples : List (List Char)
  emailed : Bool
deriving DecidableEq, Repr

/-- The configuration fields the detection logic reads: `use_keyword`
(line 153) and the raw `keyword` value (lowercased at line 154). -/
structure Config where
  use_keyword : Bool
  keyword : List Char
deriving DecidableEq, Repr

/-- Reason string of line 209. -/
def changeReason : List Char := "Page content changed".data

/-- Sample string of line 210. -/
def previewMsg (text_lower : List Char) : List Char :=
  "Content preview: ".data ++ pyStrip (text_lower.take 200)

/-- Reason string of line 242. -/
def kwReason (kw : List Char) : List Char :=
  "Keyword ".data ++ [sqChar] ++ kw ++ [sqChar] ++ " found on page".data

/-- Sample string of line 246. -/
def kwContextMsg (sample : List Char) : List Char :=
  "Keyword context: ".data ++ sample

/-- Lines 199-213: first-run snapshot (with an immediate partial save of only
`last_hash`), content-change detection, or no change. -/
def changeCheck (page_hash text_lower : List Char) (mem : Mem) (disk : StateDict) :
    Step1Out :=
  match mem.last_hash with
  | none =>
    let dict' := { mem.dict with last_hash := some page_hash }
    ⟨⟨some page_hash, mem.last_keyword_found, dict'⟩, dict', [dict'], false, [], []⟩
  | some lh =>
    if page_hash ≠ lh then
      ⟨⟨some page_hash, mem.last_keyword_found, mem.dict⟩, disk, [], true,
       [changeReason], [previewMsg text_lower]⟩
    else
      ⟨mem, disk, [], false, [], []⟩

/-- Lines 219-251: the variation search; on success the keyword reason plus a
200-character context window starting 60 characters before the first
occurrence (clamped to 0), stripped. -/
def keywordCheck (kw text_lower : List Char) : Step2Out :=
  let r := keywordSearch kw text_lower
  if r.1 then
    let idx := pyFind text_lower (toLowerList r.2)
    let start := (max 0 (idx - 60)).toNat
    ⟨true, [kwReason kw], [kwContextMsg (pyStrip ((text_lower.drop start).take 200))]⟩
  else
    ⟨false, [], []⟩

/-- One iteration of the `while` loop of `main` (lines 174-290) on a
successful fetch (`some text`) or a fetch failure on both strategies
(`none`, the `except` arms of lines 278-281).  `hash` abstracts
`compute_hash` composed with UTF-8 encoding; `sendResult` is the boolean
returned by `send_email`, which the program only prints. -/
def runCycle (hash : List Char → List Char) (cfg : Config) (mem : Mem)
    (disk : StateDict) (fetched : Option (List Char)) (sendResult : Bool) :
    CycleOut :=
  match fetched with
  | none => ⟨mem, disk, [], false, false, false, [], [], false⟩
  | some text =>
    let text_lower := toLowerList text
    let page_hash := hash text
    let s1 := changeCheck page_hash text_lower mem disk
    let s2 := if cfg.use_keyword then keywordCheck (toLowerList cfg.keyword) text_lower
              else ⟨false, [], []⟩
    let mem2 := if cfg.use_keyword then { s1.mem with last_keyword_found := s2.found }
                else s1.mem
    let changed := s1.content_changed || s2.found
    if changed then
      let dict2 := { mem2.dict with last_hash := mem2.last_hash, last_keyword_found := some mem2.last_keyword_found }
      ⟨{ mem2 with dict := dict2 }, dict2, s1.saves ++ [dict2],
       s1.content_changed, s2.found, true,
       s1.reasons ++ s2.reasons, s1.samples ++ s2.samples, true⟩
    else
      ⟨mem2, s1.disk, s1.saves, s1.content_changed, s2.found, false,
       s1.reasons ++ s2.reasons, s1.samples ++ s2.samples, false⟩

/-- The continuous-mode loop over a list of cycles; each cycle is a fetch
outcome paired with the email-send result for that cycle. -/
def runCycles (hash : List Char → List Char) (cfg : Config) :
    Mem → StateDict → List (Option (List Char) × Bool) → Mem × StateDict
  | mem, disk, [] => (mem, disk)
  | mem, disk, p :: rest =>
    let o := runCycle hash cfg mem disk p.1 p.2
    runCycles hash cfg o.mem o.disk rest

/-- Single-run mode (`single_run = true`): one cycle, with any exception
caught at lines 278-281, then `break` at line 285 and a normal return from
`main`, so the process exit code is 0. -/
def singleRun (hash : List Char → List Char) (cfg : Config) (mem : Mem)
    (disk : StateDict) (fetched : Option (List Char)) (sendResult : Bool) :
    CycleOut × Nat :=
  (runCycle hash cfg mem disk fetched sendResult, 0)

/-!
## Case-mapping lemmas
-/

theorem lowerChar_lowerChar (c : Char) : lowerChar (lowerChar c) = lowerChar c := by
  rcases h : casePairs.find? (fun p => p.1 == c) with _ | p
  · have hc : lowerChar c = c := by simp [lowerChar, h]
    simp only [hc]
  · have hc : lowerChar c = p.2 := by simp [lowerChar, h]
    have hp : p ∈ casePairs := List.mem_of_find?_eq_some h
    have hall : ∀ q ∈ casePairs, lowerChar q.2 = q.2 := by decide
    rw [hc, hall p hp]

theorem lowerChar_upperChar (c : Char) : lowerChar (upperChar c) = lowerChar c := by
  rcases h : casePairs.find? (fun p => p.2 == c) with _ | p
  · have hc : upperChar c = c := by simp [upperChar, h]
    rw [hc]
  · have hc : upperChar c = p.1 := by simp [upperChar, h]
    have hp : p ∈ casePairs := List.mem_of_find?_eq_some h
    have hc2 : p.2 = c := by
      have := List.find?_some h
      simpa using this
    have hall : ∀ q ∈ casePairs, lowerChar q.1 = lowerChar q.2 := by decide
    rw [hc, hall p hp, hc2]

theorem toLowerList_toLowerList (l : List Char) :
    toLowerList (toLowerList l) = toLowerList l := by
  induction l with
  | nil => rfl
  | cons c cs ih =>
    simp only [toLowerList, List.map_cons] at *
    rw [lowerChar_lowerChar]
    exact congrArg _ ih

theorem singleCased_iff (c : Char) : singleCased c ↔ c ≠ 'ß' := by
  unfold singleCased upperCharStr titleCharStr
  by_cases hc : c = 'ß'
  · subst hc
    simp +decide
  · simp [hc]

theorem lowerChar_ne_sharp (c : Char) (h : c ≠ 'ß') : lowerChar c ≠ 'ß' := by
  rcases hf : casePairs.find? (fun p => p.1 == c) with _ | p
  · simpa [lowerChar, hf] using h
  · have hp : p ∈ casePairs := List.mem_of_find?_eq_some hf
    have hall : ∀ q ∈ casePairs, q.2 ≠ 'ß' := by decide
    simp only [lowerChar, hf, Option.map_some, Option.getD_some]
    exact hall p hp

theorem singleCased_lowerChar (c : Char) (h : singleCased c) :
    singleCased (lowerChar c) :=
  (singleCased_iff _).2 (lowerChar_ne_sharp c ((singleCased_iff c).1 h))

theorem toLowerList_map_upperChar (l : List Char) :
    toLowerList (l.map upperChar) = toLowerList l := by
  induction l with
  | nil => rfl
  | cons c cs ih =>
    simp only [toLowerList, List.map_cons] at *
    rw [lowerChar_upperChar]
    exact congrArg _ ih

theorem toUpperList_eq_map (l : List Char) (h : ∀ c ∈ l, singleCased c) :
    toUpperList l = l.map upperChar := by
  induction l with
  | nil => rfl
  | cons c cs ih =>
    have hc : upperCharStr c = [upperChar c] := (h c (List.mem_cons_self c cs)).1
    simp only [toUpperList, hc, List.map_cons, List.singleton_append]
    exact congrArg _ (ih (fun d hd => h d (List.mem_cons_of_mem c hd)))

theorem toLowerList_toUpperList (l : List Char) (h : ∀ c ∈ l, singleCased c) :
    toLowerList (toUpperList l) = toLowerList l := by
  rw [toUpperList_eq_map l h, toLowerList_map_upperChar]

theorem toLowerList_capitalizeList (l : List Char) (h : ∀ c ∈ l, singleCased c) :
    toLowerList (capitalizeList l) = toLowerList l := by
  cases l with
  | nil => rfl
  | cons c cs =>
    have hc : titleCharStr c = [upperChar c] := (h c (List.mem_cons_self c cs)).2
    simp only [capitalizeList, hc, List.singleton_append, toLowerList, List.map_cons]
    rw [lowerChar_upperChar]
    exact congrArg _ (toLowerList_toLowerList cs)

theorem toLowerList_wrap (a b : Char) (l : List Char) :
    toLowerList (a :: (l ++ [b])) = lowerChar a :: (toLowerList l ++ [lowerChar b]) := by
  simp [toLowerList]

/-!
## Substring lemmas
-/

theorem leadsWith_of_append (n b : List Char) :
    ∀ l, leadsWith (n ++ b) l = true → leadsWith n l = true := by
  induction n with
  | nil => intro l _; rfl
  | cons a as ih =>
    intro l h
    cases l with
    | nil => simp [leadsWith] at h
    | cons c cs =>
      simp only [List.cons_append, leadsWith] at h ⊢
      by_cases hac : a = c
      · simp only [hac, if_true] at h ⊢
        exact ih cs h
      · simp [hac] at h

theorem containsSub_of_leadsWith (n : List Char) :
    ∀ l, leadsWith n l = true → containsSub n l = true := by
  intro l h
  cases l with
  | nil => simpa [containsSub] using h
  | cons c cs => simp [containsSub, h]

theorem containsSub_tail (n : List Char) (c : Char) (cs : List Char)
    (h : containsSub n cs = true) : containsSub n (c :: cs) = true := by
  simp [containsSub, h]

theorem containsSub_mono (a : Char) (n b : List Char) :
    ∀ t, containsSub (a :: (n ++ b)) t = true → containsSub n t = true := by
  intro t
  induction t with
  | nil => intro h; simp [containsSub, leadsWith] at h
  | cons c cs ih =>
    intro h
    simp only [containsSub, Bool.or_eq_true] at h
    rcases h with h | h
    · simp only [leadsWith] at h
      by_cases hac : a = c
      · simp only [hac, if_true] at h
        exact containsSub_tail n c cs
          (containsSub_of_leadsWith n cs (leadsWith_of_append n b cs h))
      · simp [hac] at h
    · exact containsSub_tail n c cs (ih h)

theorem containsSub_wrap_false (a b : Char) (n : List Char) :
    ∀ t, containsSub n t = false → containsSub (a :: (n ++ [b])) t = false := by
  intro t h
  cases hx : containsSub (a :: (n ++ [b])) t with
  | false => rfl
  | true =>
    rw [containsSub_mono a n [b] t hx] at h
    exact h

theorem keywordSearch_of_containsSub (kw t : List Char)
    (h : containsSub (toLowerList kw) t = true) : (keywordSearch kw t).1 = true := by
  simp [keywordSearch, searchVariations, firstVariation, h]

theorem keywordSearch_fst (kw : List Char) (hkw : ∀ c ∈ kw, singleCased c)
    (t : List Char) :
    (keywordSearch kw t).1 = containsSub (toLowerList kw) t := by
  cases hc : containsSub (toLowerList kw) t with
  | true => simp [keywordSearch, searchVariations, firstVariation, hc]
  | false =>
    have h2 : containsSub (toLowerList (toUpperList kw)) t = false := by
      rw [toLowerList_toUpperList kw hkw]; exact hc
    have h3 : containsSub (toLowerList (capitalizeList kw)) t = false := by
      rw [toLowerList_capitalizeList kw hkw]; exact hc
    have h4 : containsSub (toLowerList (' ' :: (kw ++ [' ']))) t = false := by
      rw [toLowerList_wrap]
      exact containsSub_wrap_false _ _ _ t hc
    have h5 : containsSub (toLowerList ('>' :: (kw ++ ['<']))) t = false := by
      rw [toLowerList_wrap]
      exact containsSub_wrap_false _ _ _ t hc
    have h6 : containsSub (toLowerList (dqChar :: (kw ++ [dqChar]))) t = false := by
      rw [toLowerList_wrap]
      exact containsSub_wrap_false _ _ _ t hc
    have h7 : containsSub (toLowerList (sqChar :: (kw ++ [sqChar]))) t = false := by
      rw [toLowerList_wrap]
      exact containsSub_wrap_false _ _ _ t hc
    simp [keywordSearch, searchVariations, firstVariation, hc, h2, h3, h4, h5, h6, h7]

/-!
## Cycle-step helper lemmas
-/

theorem changeCheck_first (page_hash text_lower : List Char) (mem : Mem)
    (disk : StateDict) (h : mem.last_hash = none) :
    changeCheck page_hash text_lower mem disk =
      ⟨⟨some page_hash, mem.last_keyword_found, { mem.dict with last_hash := some page_hash }⟩,
       { mem.dict with last_hash := some page_hash },
       [{ mem.dict with last_hash := some page_hash }], false, [], []⟩ := by
  simp [changeCheck, h]

theorem changeCheck_diff (page_hash text_lower : List Char) (mem : Mem)
    (disk : StateDict) (lh : List Char) (h : mem.last_hash = some lh)
    (hne : page_hash ≠ lh) :
    changeCheck page_hash text_lower mem disk =
      ⟨⟨some page_hash, mem.last_keyword_found, mem.dict⟩, disk, [], true,
       [changeReason], [previewMsg text_lower]⟩ := by
  simp [changeCheck, h, hne]

theorem changeCheck_same (page_hash text_lower : List Char) (mem : Mem)
    (disk : StateDict) (lh : List Char) (h : mem.last_hash = some lh)
    (heq : page_hash = lh) :
    changeCheck page_hash text_lower mem disk = ⟨mem, disk, [], false, [], []⟩ := by
  simp [changeCheck, h, heq]

theorem keywordCheck_found (kw text_lower : List Char)
    (h : (keywordSearch kw text_lower).1 = true) :
    keywordCheck kw text_lower =
      ⟨true, [kwReason kw],
       [kwContextMsg (pyStrip ((text_lower.drop
          (max 0 (pyFind text_lower (toLowerList (keywordSearch kw text_lower).2) - 60)).toNat).take 200))]⟩ := by
  simp [keywordCheck, h]

theorem keywordCheck_notFound (kw text_lower : List Char)
    (h : (keywordSearch kw text_lower).1 = false) :
    keywordCheck kw text_lower = ⟨false, [], []⟩ := by
  simp [keywordCheck, h]

theorem changeReason_ne_kwReason (kw : List Char) : changeReason ≠ kwReason kw := by
  intro h
  simp [changeReason, kwReason] at h

theorem leadsWith_preview_kwContext (s : List Char) :
    leadsWith ("Content preview: ".data) (kwContextMsg s) = false := rfl

theorem leadsWith_kwContext_preview (s : List Char) :
    leadsWith ("Keyword context: ".data) (previewMsg s) = false := rfl

/-!
## Claim C4: first-run suppression
-/

/-- C4: when the prior state has no fingerprint (`last_hash is None`), the
cycle never flags a content change, emits no change reason and no change
sample, notifies only if the keyword check fires, and sets the stored
fingerprint to the current content fingerprint. -/
theorem firstRun_suppression (hash : List Char → List Char) (cfg : Config)
    (mem : Mem) (disk : StateDict) (text : List Char) (e : Bool)
    (hm : mem.last_hash = none) :
    (runCycle hash cfg mem disk (some text) e).content_changed = false ∧
    changeReason ∉ (runCycle hash cfg mem disk (some text) e).reasons ∧
    (∀ s ∈ (runCycle hash cfg mem disk (some text) e).samples,
       leadsWith ("Content preview: ".data) s = false) ∧
    (runCycle hash cfg mem disk (some text) e).changed =
      (runCycle hash cfg mem disk (some text) e).keyword_found ∧
    (runCycle hash cfg mem disk (some text) e).mem.last_hash = some (hash text) := by
  by_cases hk : cfg.use_keyword = true
  · cases hf : (keywordSearch (toLowerList cfg.keyword) (toLowerList text)).1 with
    | true =>
      simp only [runCycle, changeCheck_first _ _ _ _ hm, keywordCheck_found _ _ hf, hk]
      simp [changeReason_ne_kwReason]
      exact leadsWith_preview_kwContext _
    | false =>
      simp only [runCycle, changeCheck_first _ _ _ _ hm, keywordCheck_notFound _ _ hf, hk]
      simp
  · simp only [runCycle, changeCheck_first _ _ _ _ hm, hk]
    simp

/-- The C4 hypothesis and conclusion at a concrete input. -/
theorem firstRun_suppression_witness :
    (Mem.mk none false ⟨none, none⟩).last_hash = none ∧
    ((runCycle (fun _ => "h".data) ⟨true, "a".data⟩ ⟨none, false, ⟨none, none⟩⟩
        ⟨none, none⟩ (some "b".data) true).content_changed = false ∧
     changeReason ∉ (runCycle (fun _ => "h".data) ⟨true, "a".data⟩ ⟨none, false, ⟨none, none⟩⟩
        ⟨none, none⟩ (some "b".data) true).reasons ∧
     (∀ s ∈ (runCycle (fun _ => "h".data) ⟨true, "a".data⟩ ⟨none, false, ⟨none, none⟩⟩
        ⟨none, none⟩ (some "b".data) true).samples,
        leadsWith ("Content preview: ".data) s = false) ∧
     (runCycle (fun _ => "h".data) ⟨true, "a".data⟩ ⟨none, false, ⟨none, none⟩⟩
        ⟨none, none⟩ (some "b".data) true).changed =
       (runCycle (fun _ => "h".data) ⟨true, "a".data⟩ ⟨none, false, ⟨none, none⟩⟩
        ⟨none, none⟩ (some "b".data) true).keyword_found ∧
     (runCycle (fun _ => "h".data) ⟨true, "a".data⟩ ⟨none, false, ⟨none, none⟩⟩
        ⟨none, none⟩ (some "b".data) true).mem.last_hash =
       some ((fun _ => "h".data) "b".data)) :=
  ⟨rfl, firstRun_suppression (fun _ => "h".data) ⟨true, "a".data⟩
    ⟨none, false, ⟨none, none⟩⟩ ⟨none, none⟩ "b".data true rfl⟩

/-!
## Claim C9: the empty keyword always matches
-/

theorem containsSub_nil (t : List Char) : containsSub [] t = true := by
  cases t <;> rfl

/-- C9: with keyword matching enabled and an empty configured keyword, the
keyword search of every cycle reports found, whatever the page content. -/
theorem emptyKeyword_found (hash : List Char → List Char) (cfg : Config)
    (mem : Mem) (disk : StateDict) (text : List Char) (e : Bool)
    (hk : cfg.use_keyword = true) (hkw : cfg.keyword = []) :
    (runCycle hash cfg mem disk (some text) e).keyword_found = true := by
  have hf : (keywordSearch (toLowerList cfg.keyword) (toLowerList text)).1 = true := by
    apply keywordSearch_of_containsSub
    rw [hkw]
    exact containsSub_nil _
  rcases hm : mem.last_hash with _ | lh
  · simp only [runCycle, changeCheck_first _ _ _ _ hm, keywordCheck_found _ _ hf, hk]
    simp
  · by_cases he : hash text = lh
    · simp only [runCycle, changeCheck_same _ _ _ _ lh hm he, keywordCheck_found _ _ hf, hk]
      simp
    · simp only [runCycle, changeCheck_diff _ _ _ _ lh hm he, keywordCheck_found _ _ hf, hk]
      simp

/-- The C9 hypotheses and conclusion at a concrete input. -/
theorem emptyKeyword_found_witness :
    (Config.mk true []).use_keyword = true ∧ (Config.mk true []).keyword = [] ∧
    (runCycle (fun _ => "h".data) ⟨true, []⟩ ⟨none, false, ⟨none, none⟩⟩
      ⟨none, none⟩ (some "anything".data) true).keyword_found = true :=
  ⟨rfl, rfl, emptyKeyword_found (fun _ => "h".data) ⟨true, []⟩
    ⟨none, false, ⟨none, none⟩⟩ ⟨none, none⟩ "anything".data true rfl rfl⟩

/-!
## Claim C10: first-run suppression does not apply to the keyword reason
-/

/-- C10: on the very first successful observation, if keyword matching is on
and the keyword occurs (case-insensitively) in the content, the cycle still
notifies, sends the email, and carries the keyword reason, while the change
flag stays false. -/
theorem firstRun_keywordNotifies (hash : List Char → List Char) (cfg : Config)
    (mem : Mem) (disk : StateDict) (text : List Char) (e : Bool)
    (hm : mem.last_hash = none) (hk : cfg.use_keyword = true)
    (hf : specKeywordFound cfg.keyword text = true) :
    (runCycle hash cfg mem disk (some text) e).changed = true ∧
    (runCycle hash cfg mem disk (some text) e).emailed = true ∧
    kwReason (toLowerList cfg.keyword) ∈ (runCycle hash cfg mem disk (some text) e).reasons ∧
    (runCycle hash cfg mem disk (some text) e).content_changed = false := by
  have hf' : (keywordSearch (toLowerList cfg.keyword) (toLowerList text)).1 = true := by
    apply keywordSearch_of_containsSub
    rw [toLowerList_toLowerList]
    exact hf
  simp only [runCycle, changeCheck_first _ _ _ _ hm, keywordCheck_found _ _ hf', hk]
  simp

/-- The C10 hypotheses and conclusion at a concrete input. -/
theorem firstRun_keywordNotifies_witness :
    (Mem.mk none false ⟨none, none⟩).last_hash = none ∧
    (Config.mk true "a".data).use_keyword = true ∧
    specKeywordFound "a".data "bar".data = true ∧
    ((runCycle (fun _ => "h".data) ⟨true, "a".data⟩ ⟨none, false, ⟨none, none⟩⟩
        ⟨none, none⟩ (some "bar".data) true).changed = true ∧
     (runCycle (fun _ => "h".data) ⟨true, "a".data⟩ ⟨none, false, ⟨none, none⟩⟩
        ⟨none, none⟩ (some "bar".data) true).emailed = true ∧
     kwReason (toLowerList "a".data) ∈ (runCycle (fun _ => "h".data) ⟨true, "a".data⟩
        ⟨none, false, ⟨none, none⟩⟩ ⟨none, none⟩ (some "bar".data) true).reasons ∧
     (runCycle (fun _ => "h".data) ⟨true, "a".data⟩ ⟨none, false, ⟨none, none⟩⟩
        ⟨none, none⟩ (some "bar".data) true).content_changed = false) :=
  ⟨rfl, rfl, by decide, firstRun_keywordNotifies (fun _ => "h".data) ⟨true, "a".data⟩
    ⟨none, false, ⟨none, none⟩⟩ ⟨none, none⟩ "bar".data true rfl rfl (by decide)⟩

/-!
## Claim C5: keyword trigger fires on found, never on not-found
-/

theorem kwReason_ne_changeReason (kw : List Char) : kwReason kw ≠ changeReason := by
  intro h
  simp [changeReason, kwReason] at h

/-- C5: with keyword matching enabled, a cycle whose search finds the keyword
notifies with the keyword reason and records the flag true (in particular on
a false-to-true transition); a cycle whose search does not find it adds no
keyword reason and no keyword sample, notifies only if the content changed,
and still records the flag false (in particular on a true-to-false
transition). -/
theorem keyword_oneDirectional (hash : List Char → List Char) (cfg : Config)
    (mem : Mem) (disk : StateDict) (text : List Char) (e : Bool)
    (hk : cfg.use_keyword = true) :
    ((mem.last_keyword_found = false ∧
        (keywordSearch (toLowerList cfg.keyword) (toLowerList text)).1 = true) →
      (runCycle hash cfg mem disk (some text) e).changed = true ∧
      kwReason (toLowerList cfg.keyword) ∈ (runCycle hash cfg mem disk (some text) e).reasons ∧
      (runCycle hash cfg mem disk (some text) e).mem.last_keyword_found = true) ∧
    ((mem.last_keyword_found = true ∧
        (keywordSearch (toLowerList cfg.keyword) (toLowerList text)).1 = false) →
      kwReason (toLowerList cfg.keyword) ∉ (runCycle hash cfg mem disk (some text) e).reasons ∧
      (∀ s ∈ (runCycle hash cfg mem disk (some text) e).samples,
         leadsWith ("Keyword context: ".data) s = false) ∧
      (runCycle hash cfg mem disk (some text) e).changed =
        (runCycle hash cfg mem disk (some text) e).content_changed ∧
      (runCycle hash cfg mem disk (some text) e).mem.last_keyword_found = false) := by
  constructor
  · rintro ⟨-, hf⟩
    rcases hm : mem.last_hash with _ | lh
    · simp only [runCycle, changeCheck_first _ _ _ _ hm, keywordCheck_found _ _ hf, hk]
      simp
    · by_cases he : hash text = lh
      · simp only [runCycle, changeCheck_same _ _ _ _ lh hm he, keywordCheck_found _ _ hf, hk]
        simp
      · simp only [runCycle, changeCheck_diff _ _ _ _ lh hm he, keywordCheck_found _ _ hf, hk]
        simp
  · rintro ⟨-, hf⟩
    rcases hm : mem.last_hash with _ | lh
    · simp only [runCycle, changeCheck_first _ _ _ _ hm, keywordCheck_notFound _ _ hf, hk]
      simp
    · by_cases he : hash text = lh
      · simp only [runCycle, changeCheck_same _ _ _ _ lh hm he, keywordCheck_notFound _ _ hf, hk]
        simp
      · simp only [runCycle, changeCheck_diff _ _ _ _ lh hm he, keywordCheck_notFound _ _ hf, hk]
        simp [kwReason_ne_changeReason]
        exact leadsWith_kwContext_preview _

/-- A concrete stand-in fingerprint function for witness statements. -/
def wHash : List Char → List Char := fun _ => "h".data

/-- A concrete configuration with keyword matching on, used by witnesses. -/
def wCfg : Config := ⟨true, "a".data⟩

/-- A concrete fresh in-process state, used by witnesses. -/
def wMem0 : Mem := ⟨none, false, ⟨none, none⟩⟩

/-- A concrete empty state dictionary, used by witnesses. -/
def wDict0 : StateDict := ⟨none, none⟩

/-- The C5 hypothesis and conclusion at a concrete input. -/
theorem keyword_oneDirectional_witness :
    wCfg.use_keyword = true ∧
    (((wMem0.last_keyword_found = false ∧
        (keywordSearch (toLowerList wCfg.keyword) (toLowerList "a".data)).1 = true) →
      (runCycle wHash wCfg wMem0 wDict0 (some "a".data) true).changed = true ∧
      kwReason (toLowerList wCfg.keyword) ∈
        (runCycle wHash wCfg wMem0 wDict0 (some "a".data) true).reasons ∧
      (runCycle wHash wCfg wMem0 wDict0 (some "a".data) true).mem.last_keyword_found = true) ∧
    ((wMem0.last_keyword_found = true ∧
        (keywordSearch (toLowerList wCfg.keyword) (toLowerList "a".data)).1 = false) →
      kwReason (toLowerList wCfg.keyword) ∉
        (runCycle wHash wCfg wMem0 wDict0 (some "a".data) true).reasons ∧
      (∀ s ∈ (runCycle wHash wCfg wMem0 wDict0 (some "a".data) true).samples,
         leadsWith ("Keyword context: ".data) s = false) ∧
      (runCycle wHash wCfg wMem0 wDict0 (some "a".data) true).changed =
        (runCycle wHash wCfg wMem0 wDict0 (some "a".data) true).content_changed ∧
      (runCycle wHash wCfg wMem0 wDict0 (some "a".data) true).mem.last_keyword_found = false)) :=
  ⟨rfl, keyword_oneDirectional wHash wCfg wMem0 wDict0 "a".data true rfl⟩

/-!
## Claim C1: idempotence of no-change
-/

/-- C1 counterexample: with keyword matching enabled and keyword "a", a first
cycle on content "a" persists the fingerprint and the keyword flag, yet the
second cycle on the identical content still notifies (the code re-notifies on
every cycle in which the keyword is present, not only on transitions), so
`should_notify` is not false on the second cycle. -/
theorem noChange_idempotence_cex :
    (runCycle wHash wCfg wMem0 wDict0 (some "a".data) true).disk =
      ⟨some "h".data, some true⟩ ∧
    (runCycle wHash wCfg
      (runCycle wHash wCfg wMem0 wDict0 (some "a".data) true).mem
      (runCycle wHash wCfg wMem0 wDict0 (some "a".data) true).disk
      (some "a".data) true).changed = true := by
  decide

/-- C1 (amended): after a cycle observing content T, a second consecutive
cycle observing identical content T leaves the in-process state, the durable
file and the in-memory dict unchanged, and its notification decision equals
`use_keyword AND keyword-found-in-T`; in particular `should_notify` is false
on the second cycle whenever keyword matching is disabled or the keyword is
not found in T. -/
theorem noChange_idempotence (hash : List Char → List Char) (cfg : Config)
    (mem : Mem) (disk : StateDict) (text : List Char) (e1 e2 : Bool) :
    (runCycle hash cfg (runCycle hash cfg mem disk (some text) e1).mem
      (runCycle hash cfg mem disk (some text) e1).disk (some text) e2).mem =
      (runCycle hash cfg mem disk (some text) e1).mem ∧
    (runCycle hash cfg (runCycle hash cfg mem disk (some text) e1).mem
      (runCycle hash cfg mem disk (some text) e1).disk (some text) e2).disk =
      (runCycle hash cfg mem disk (some text) e1).disk ∧
    (runCycle hash cfg (runCycle hash cfg mem disk (some text) e1).mem
      (runCycle hash cfg mem disk (some text) e1).disk (some text) e2).changed =
      (cfg.use_keyword && (keywordSearch (toLowerList cfg.keyword) (toLowerList text)).1) := by
  obtain ⟨mlh, mkf, dict⟩ := mem
  obtain ⟨dlh, dkf⟩ := dict
  rcases mlh with _ | lh
  · by_cases hk : cfg.use_keyword = true <;>
      cases hf : (keywordSearch (toLowerList cfg.keyword) (toLowerList text)).1 <;>
        simp [runCycle, changeCheck, keywordCheck, hk, hf]
  · by_cases he : hash text = lh <;>
      by_cases hk : cfg.use_keyword = true <;>
        cases hf : (keywordSearch (toLowerList cfg.keyword) (toLowerList text)).1 <;>
          simp [runCycle, changeCheck, keywordCheck, hk, hf, he]

/-!
## Claim C2: keyword-state persistence
-/

/-- C2 counterexample: with keyword matching enabled the found/not-found
decision is not always written to the durable store.  On a fresh first run
whose content lacks the keyword, the only save stores just the fingerprint
and no keyword key; and on a no-change cycle from a store holding `true`,
nothing is saved at all and the durable value stays `true` while the
decision of the cycle is `false`. -/
theorem keywordPersistence_cex :
    (runCycle wHash wCfg wMem0 wDict0 (some "zzz".data) true).keyword_found = false ∧
    (runCycle wHash wCfg wMem0 wDict0 (some "zzz".data) true).saves =
      [⟨some "h".data, none⟩] ∧
    (runCycle wHash wCfg ⟨some "h".data, true, ⟨some "h".data, some true⟩⟩
      ⟨some "h".data, some true⟩ (some "zzz".data) true).keyword_found = false ∧
    (runCycle wHash wCfg ⟨some "h".data, true, ⟨some "h".data, some true⟩⟩
      ⟨some "h".data, some true⟩ (some "zzz".data) true).saves = [] ∧
    (runCycle wHash wCfg ⟨some "h".data, true, ⟨some "h".data, some true⟩⟩
      ⟨some "h".data, some true⟩ (some "zzz".data) true).disk.last_keyword_found =
      some true := by
  decide

/-- C2 (amended): with keyword matching enabled, the in-memory
`last_keyword_found` is unconditionally set to the found decision of the
cycle at decision time, and the durable store receives that value exactly on
cycles that notify (content change or keyword found): on a notifying cycle
the stored entry is the decision; on a non-notifying cycle the entry keeps
its prior value — the on-disk one, except that the first-run snapshot save
rewrites the file from the in-memory dict with only the fingerprint updated,
carrying that dict's keyword entry through.  The whole cycle outcome is
independent of the email delivery result. -/
theorem keywordPersistence (hash : List Char → List Char) (cfg : Config)
    (mem : Mem) (disk : StateDict) (text : List Char) (e1 e2 : Bool)
    (hk : cfg.use_keyword = true) :
    (runCycle hash cfg mem disk (some text) e1).mem.last_keyword_found =
      (keywordSearch (toLowerList cfg.keyword) (toLowerList text)).1 ∧
    (runCycle hash cfg mem disk (some text) e1).disk.last_keyword_found =
      (if (runCycle hash cfg mem disk (some text) e1).changed = true then
        some ((keywordSearch (toLowerList cfg.keyword) (toLowerList text)).1)
      else if mem.last_hash = none then mem.dict.last_keyword_found
      else disk.last_keyword_found) ∧
    runCycle hash cfg mem disk (some text) e1 = runCycle hash cfg mem disk (some text) e2 := by
  refine ⟨?_, ?_, rfl⟩ <;>
  · obtain ⟨mlh, mkf, dict⟩ := mem
    obtain ⟨dlh, dkf⟩ := dict
    rcases mlh with _ | lh
    · cases hf : (keywordSearch (toLowerList cfg.keyword) (toLowerList text)).1 <;>
        simp [runCycle, changeCheck, keywordCheck, hk, hf]
    · by_cases he : hash text = lh <;>
        cases hf : (keywordSearch (toLowerList cfg.keyword) (toLowerList text)).1 <;>
          simp [runCycle, changeCheck, keywordCheck, hk, hf, he]

/-- The C2 (amended) hypothesis and conclusion at a concrete input. -/
theorem keywordPersistence_witness :
    wCfg.use_keyword = true ∧
    ((runCycle wHash wCfg wMem0 wDict0 (some "a".data) true).mem.last_keyword_found =
      (keywordSearch (toLowerList wCfg.keyword) (toLowerList "a".data)).1 ∧
    (runCycle wHash wCfg wMem0 wDict0 (some "a".data) true).disk.last_keyword_found =
      (if (runCycle wHash wCfg wMem0 wDict0 (some "a".data) true).changed = true then
        some ((keywordSearch (toLowerList wCfg.keyword) (toLowerList "a".data)).1)
      else if wMem0.last_hash = none then wMem0.dict.last_keyword_found
      else wDict0.last_keyword_found) ∧
    runCycle wHash wCfg wMem0 wDict0 (some "a".data) true =
      runCycle wHash wCfg wMem0 wDict0 (some "a".data) false) :=
  ⟨rfl, keywordPersistence wHash wCfg wMem0 wDict0 "a".data true false rfl⟩

/-!
## Claims C6 and C7: fingerprint lifecycle and fetch-failure atomicity
-/

theorem runCycle_mem_last_hash (hash : List Char → List Char) (cfg : Config)
    (mem : Mem) (disk : StateDict) (text : List Char) (e : Bool) :
    (runCycle hash cfg mem disk (some text) e).mem.last_hash =
      (match mem.last_hash with
       | none => some (hash text)
       | some lh => if hash text ≠ lh then some (hash text) else some lh) := by
  obtain ⟨mlh, mkf, dict⟩ := mem
  obtain ⟨dlh, dkf⟩ := dict
  rcases mlh with _ | lh
  · by_cases hk : cfg.use_keyword = true <;>
      cases hf : (keywordSearch (toLowerList cfg.keyword) (toLowerList text)).1 <;>
        simp [runCycle, changeCheck, keywordCheck, hk, hf]
  · by_cases he : hash text = lh <;>
      by_cases hk : cfg.use_keyword = true <;>
        cases hf : (keywordSearch (toLowerList cfg.keyword) (toLowerList text)).1 <;>
          simp [runCycle, changeCheck, keywordCheck, hk, hf, he]

theorem runCycles_some_of_some (hash : List Char → List Char) (cfg : Config) :
    ∀ (obs : List (Option (List Char) × Bool)) (mem : Mem) (disk : StateDict)
      (D : List Char), mem.last_hash = some D →
      ∃ E, (runCycles hash cfg mem disk obs).1.last_hash = some E := by
  intro obs
  induction obs with
  | nil =>
    intro mem disk D hm
    exact ⟨D, by simpa [runCycles] using hm⟩
  | cons p rest ih =>
    intro mem disk D hm
    rcases p with ⟨f, e⟩
    cases f with
    | none =>
      simp only [runCycles]
      exact ih _ _ D hm
    | some t =>
      simp only [runCycles]
      by_cases he : hash t = D
      · refine ih _ _ D ?_
        rw [runCycle_mem_last_hash, hm]
        simp [he]
      · refine ih _ _ (hash t) ?_
        rw [runCycle_mem_last_hash, hm]
        simp [he]

theorem runCycles_none_iff (hash : List Char → List Char) (cfg : Config) :
    ∀ (obs : List (Option (List Char) × Bool)) (mem : Mem) (disk : StateDict),
      mem.last_hash = none →
      ((runCycles hash cfg mem disk obs).1.last_hash = none ↔ ∀ p ∈ obs, p.1 = none) := by
  intro obs
  induction obs with
  | nil =>
    intro mem disk hm
    simp [runCycles, hm]
  | cons p rest ih =>
    intro mem disk hm
    rcases p with ⟨f, e⟩
    cases f with
    | none =>
      simp only [runCycles, runCycle]
      rw [ih _ _ hm]
      simp
    | some t =>
      simp only [runCycles]
      have hsome : (runCycle hash cfg mem disk (some t) e).mem.last_hash = some (hash t) := by
        rw [runCycle_mem_last_hash, hm]
      obtain ⟨E, hE⟩ := runCycles_some_of_some hash cfg rest _ _ (hash t) hsome
      rw [hE]
      simp

/-- C6: the fingerprint lifecycle invariant.  One step from a set fingerprint
either keeps it or replaces it with the differing fingerprint of the newly
observed content; over any run a set fingerprint is never cleared back to
none; and starting from none, the fingerprint is still none after a run
exactly when no cycle of the run had a successful fetch. -/
theorem fingerprint_monotone (hash : List Char → List Char) (cfg : Config) :
    (∀ (mem : Mem) (disk : StateDict) (text : List Char) (e : Bool) (D : List Char),
      mem.last_hash = some D →
      ((runCycle hash cfg mem disk (some text) e).mem.last_hash = some D ∨
       ((runCycle hash cfg mem disk (some text) e).mem.last_hash = some (hash text) ∧
        hash text ≠ D))) ∧
    (∀ (obs : List (Option (List Char) × Bool)) (mem : Mem) (disk : StateDict)
       (D : List Char), mem.last_hash = some D →
      ∃ E, (runCycles hash cfg mem disk obs).1.last_hash = some E) ∧
    (∀ (obs : List (Option (List Char) × Bool)) (mem : Mem) (disk : StateDict),
      mem.last_hash = none →
      ((runCycles hash cfg mem disk obs).1.last_hash = none ↔ ∀ p ∈ obs, p.1 = none)) := by
  refine ⟨?_, runCycles_some_of_some hash cfg, runCycles_none_iff hash cfg⟩
  intro mem disk text e D hm
  by_cases he : hash text = D
  · left
    rw [runCycle_mem_last_hash, hm]
    simp [he]
  · right
    rw [runCycle_mem_last_hash, hm]
    simp [he]

/-- The C6 hypotheses and conclusions at concrete inputs. -/
theorem fingerprint_monotone_witness :
    (Mem.mk (some "h".data) false ⟨none, none⟩).last_hash = some "h".data ∧
    wMem0.last_hash = none ∧
    ((runCycle wHash wCfg ⟨some "h".data, false, ⟨none, none⟩⟩ wDict0
        (some "b".data) true).mem.last_hash = some "h".data ∨
     ((runCycle wHash wCfg ⟨some "h".data, false, ⟨none, none⟩⟩ wDict0
        (some "b".data) true).mem.last_hash = some (wHash "b".data) ∧
      wHash "b".data ≠ "h".data)) ∧
    (∃ E, (runCycles wHash wCfg ⟨some "h".data, false, ⟨none, none⟩⟩ wDict0
        [(some "b".data, true)]).1.last_hash = some E) ∧
    ((runCycles wHash wCfg wMem0 wDict0 [(none, true)]).1.last_hash = none ↔
      ∀ p ∈ [((none : Option (List Char)), true)], p.1 = none) :=
  ⟨rfl, rfl,
   (fingerprint_monotone wHash wCfg).1 ⟨some "h".data, false, ⟨none, none⟩⟩ wDict0
     "b".data true "h".data rfl,
   (fingerprint_monotone wHash wCfg).2.1 [(some "b".data, true)]
     ⟨some "h".data, false, ⟨none, none⟩⟩ wDict0 "h".data rfl,
   (fingerprint_monotone wHash wCfg).2.2 [(none, true)] wMem0 wDict0 rfl⟩

/-- C7: a cycle in which both fetch strategies fail mutates nothing, saves
nothing, and does not notify; in continuous mode the loop simply proceeds to
the remaining cycles from the same state; in single-run mode the process
still finishes with exit code 0. -/
theorem fetchError_atomic (hash : List Char → List Char) (cfg : Config)
    (mem : Mem) (disk : StateDict) (e : Bool)
    (rest : List (Option (List Char) × Bool)) :
    runCycle hash cfg mem disk none e =
      ⟨mem, disk, [], false, false, false, [], [], false⟩ ∧
    runCycles hash cfg mem disk ((none, e) :: rest) = runCycles hash cfg mem disk rest ∧
    (singleRun hash cfg mem disk none e).2 = 0 :=
  ⟨rfl, rfl, rfl⟩

/-!
## Claim C3: the variation enumeration versus the single search

Python case mapping is one-to-many, so the equivalence between the
seven-variation search and a single case-insensitive substring search is not
universal: the sharp s is a lower-case fixed point (the keyword lowering of
line 154 keeps it), yet its uppercase variation is `SS`, which lowers to
`ss`; on a page containing `ss`, the variation loop finds a match that the
single search for the sharp s misses.  The equivalence does hold for
keywords of single-cased characters, in particular every ASCII keyword.
-/

/-- JSON values occurring in the state file: strings and booleans. -/
inductive JVal where
  | str (s : List Char)
  | bool (b : Bool)
deriving DecidableEq, Repr

/-- The open-brace character, written by code point to keep sources plain. -/
def obChar : Char := Char.ofNat 123

/-- The close-brace character, written by code point to keep sources plain. -/
def cbChar : Char := Char.ofNat 125

/-- The `last_hash` key. -/
def keyLastHash : List Char := "last_hash".data

/-- The `last_keyword_found` key. -/
def keyLKF : List Char := "last_keyword_found".data

/-- The entries of the state dictionary in write order. -/
def entriesOf (d : StateDict) : List (List Char × JVal) :=
  (match d.last_hash with
   | none => []
   | some s => [(keyLastHash, JVal.str s)]) ++
  (match d.last_keyword_found with
   | none => []
   | some b => [(keyLKF, JVal.bool b)])

/-- Rendering of a JSON scalar value (strings of the state file need no
escaping: fingerprints are lowercase hex digests). -/
def renderJVal : JVal → List Char
  | .str s => dqChar :: (s ++ [dqChar])
  | .bool true => "true".data
  | .bool false => "false".data

/-- Rendering of one `indent=2` object entry. -/
def renderEntry (kv : List Char × JVal) : List Char :=
  ' ' :: ' ' :: dqChar :: (kv.1 ++ (dqChar :: ':' :: ' ' :: renderJVal kv.2))

/-- Interleave a separator between rendered entries. -/
def joinSep (sep : List Char) : List (List Char) → List Char
  | [] => []
  | [x] => x
  | x :: xs => x ++ (sep ++ joinSep sep xs)

/-- Model of `json.dump(state, f, indent=2)` on the state dictionary. -/
def renderStateJson (d : StateDict) : List Char :=
  match entriesOf d with
  | [] => [obChar, cbChar]
  | es => obChar :: '\n' :: (joinSep (',' :: ['\n']) (es.map renderEntry) ++ ('\n' :: [cbChar]))

/-- JSON whitespace skipping (space, tab, newline, carriage return). -/
def skipWs : List Char → List Char
  | [] => []
  | c :: cs => if c = ' ' ∨ c = '\n' ∨ c = '\t' ∨ c = '\r' then skipWs cs else c :: cs

/-- Body of a string literal after the opening quote, up to the closing
quote (the state file fragment contains no escapes). -/
def parseStringLit : List Char → Option (List Char × List Char)
  | [] => none
  | c :: cs =>
    if c = dqChar then some ([], cs)
    else
      match parseStringLit cs with
      | some (s, rest) => some (c :: s, rest)
      | none => none

/-- One scalar JSON value: a string or a boolean literal. -/
def parseJVal : List Char → Option (JVal × List Char)
  | [] => none
  | c :: cs =>
    if c = dqChar then
      match parseStringLit cs with
      | some (s, rest) => some (JVal.str s, rest)
      | none => none
    else if leadsWith ("true".data) (c :: cs) then some (JVal.bool true, cs.drop 3)
    else if leadsWith ("false".data) (c :: cs) then some (JVal.bool false, cs.drop 4)
    else none

/-- One `"key": value` entry, leading whitespace allowed. -/
def parseEntry (cs : List Char) : Option ((List Char × JVal) × List Char) :=
  match skipWs cs with
  | [] => none
  | c :: cs1 =>
    if c = dqChar then
      match parseStringLit cs1 with
      | some (k, cs2) =>
        match skipWs cs2 with
        | ':' :: cs3 =>
          match parseJVal (skipWs cs3) with
          | some (v, rest) => some ((k, v), rest)
          | none => none
        | _ => none
      | none => none
    else none

/-- A comma-separated entry sequence, driven by a fuel bound. -/
def parseEntriesAux : Nat → List Char → Option (List (List Char × JVal) × List Char)
  | 0, _ => none
  | fuel + 1, cs =>
    match parseEntry cs with
    | none => none
    | some (kv, rest) =>
      match skipWs rest with
      | c :: rest2 =>
        if c = ',' then
          match parseEntriesAux fuel rest2 with
          | some (l, r) => some (kv :: l, r)
          | none => none
        else some ([kv], rest)
      | [] => some ([kv], rest)

/-- A JSON object of scalar entries. -/
def parseObj (cs : List Char) : Option (List (List Char × JVal) × List Char) :=
  match skipWs cs with
  | [] => none
  | c :: cs1 =>
    if c = obChar then
      match skipWs cs1 with
      | [] => none
      | c2 :: cs2 =>
        if c2 = cbChar then some ([], cs2)
        else
          match parseEntriesAux cs1.length (c2 :: cs2) with
          | some (es, r) =>
            match skipWs r with
            | c3 :: r2 => if c3 = cbChar then some (es, r2) else none
            | [] => none
          | none => none
    else none

/-- Python dict semantics: on duplicate keys the last occurrence wins. -/
def lookupLast : List (List Char × JVal) → List Char → Option JVal
  | [], _ => none
  | kv :: rest, key =>
    match lookupLast rest key with
    | some v => some v
    | none => if kv.1 = key then some kv.2 else none

/-- Model of `json.load` on the state file followed by the `.get`
extractions of lines 160-161, producing the logical state: the optional
`last_hash` string and the `last_keyword_found` flag (default false). -/
def parseStateFile (file : List Char) : Option (Option (List Char) × Bool) :=
  match parseObj file with
  | some (es, rest) =>
    if skipWs rest = [] then
      some
        ((match lookupLast es keyLastHash with
          | some (JVal.str s) => some s
          | _ => none),
         (match lookupLast es keyLKF with
          | some (JVal.bool b) => b
          | _ => false))
    else none
  | none => none

/-- Model of `save_state` applied to the logical state `(h, b)`: the program
writes the dictionary with `last_hash` present exactly when `h` is, and
`last_keyword_found` present (lines 274-276). -/
def saveStateFile (h : Option (List Char)) (b : Bool) : List Char :=
  renderStateJson ⟨h, some b⟩

example : parseStateFile (saveStateFile (some "ab12".data) true) =
    some (some "ab12".data, true) := by decide

example : parseStateFile (saveStateFile none false) = some (none, false) := by decide

example : parseStateFile (saveStateFile (some [] ) false) = some (some [], false) := by
  decide

theorem parseStringLit_append (s : List Char) (hs : ∀ c ∈ s, c ≠ dqChar) :
    ∀ rest, parseStringLit (s ++ (dqChar :: rest)) = some (s, rest) := by
  induction s with
  | nil => intro rest; simp [parseStringLit]
  | cons c cs ih =>
    intro rest
    have hc : c ≠ dqChar := hs c (List.mem_cons_self c cs)
    have ih' := ih (fun d hd => hs d (List.mem_cons_of_mem c hd)) rest
    simp [parseStringLit, hc, ih']

theorem parseEntry_hashEntry (s z : List Char) (hs : ∀ c ∈ s, c ≠ dqChar) :
    parseEntry (dqChar :: ("last_hash".data ++
        (dqChar :: ':' :: ' ' :: (dqChar :: (s ++ (dqChar :: z)))))) =
      some ((keyLastHash, JVal.str s), z) := by
  simp +decide [parseEntry, skipWs, parseStringLit, parseJVal, keyLastHash,
        parseStringLit_append s hs]

theorem parseEntry_kwEntry (b : Bool) (z : List Char) :
    parseEntry (dqChar :: ("last_keyword_found".data ++
        (dqChar :: ':' :: ' ' :: (renderJVal (JVal.bool b) ++ z)))) =
      some ((keyLKF, JVal.bool b), z) := by
  cases b <;> rfl

theorem parseEntriesAux_mono : ∀ (n m : Nat) (cs : List Char)
    (r : List (List Char × JVal) × List Char),
    parseEntriesAux n cs = some r → n ≤ m → parseEntriesAux m cs = some r := by
  intro n
  induction n with
  | zero => intro m cs r h; simp [parseEntriesAux] at h
  | succ k ih =>
    intro m cs r h hle
    obtain ⟨m', rfl⟩ : ∃ m', m = m' + 1 := ⟨m - 1, by omega⟩
    simp only [parseEntriesAux] at h ⊢
    cases hp : parseEntry cs with
    | none =>
      simp only [hp] at h
      exact Option.noConfusion h
    | some pr =>
      obtain ⟨kv, rest⟩ := pr
      simp only [hp] at h ⊢
      cases hw : skipWs rest with
      | nil =>
        simp only [hw] at h ⊢
        exact h
      | cons c rest2 =>
        simp only [hw] at h ⊢
        by_cases hc : c = ','
        · rw [if_pos hc] at h ⊢
          cases hq : parseEntriesAux k rest2 with
          | none =>
            simp only [hq] at h
            exact Option.noConfusion h
          | some lr =>
            simp only [hq] at h
            rw [ih m' rest2 lr hq (by omega)]
            exact h
        · rw [if_neg hc] at h ⊢
          exact h

theorem skipWs_dq (x : List Char) : skipWs (dqChar :: x) = dqChar :: x := rfl

theorem skipWs_comma (x : List Char) : skipWs (',' :: x) = ',' :: x := rfl

theorem skipWs_nl (x : List Char) : skipWs ('\n' :: x) = skipWs x := rfl

theorem skipWs_sp (x : List Char) : skipWs (' ' :: x) = skipWs x := rfl

theorem skipWs_ob (x : List Char) : skipWs (obChar :: x) = obChar :: x := rfl

theorem skipWs_cb (x : List Char) : skipWs (cbChar :: x) = cbChar :: x := rfl

theorem parseEntriesAux_two (k : Nat) (s : List Char) (b : Bool)
    (hs : ∀ c ∈ s, c ≠ dqChar) :
    parseEntriesAux (k + 1 + 1)
      (dqChar :: ("last_hash".data ++
        (dqChar :: ':' :: ' ' :: (dqChar :: (s ++ (dqChar :: ',' :: '\n' :: ' ' :: ' ' ::
          dqChar :: ("last_keyword_found".data ++
            (dqChar :: ':' :: ' ' :: (renderJVal (JVal.bool b) ++ ['\n', cbChar]))))))))) =
      some ([(keyLastHash, JVal.str s), (keyLKF, JVal.bool b)], ['\n', cbChar]) := by
  have h1 := parseEntry_hashEntry s
    (',' :: '\n' :: ' ' :: ' ' :: dqChar :: ("last_keyword_found".data ++
      (dqChar :: ':' :: ' ' :: (renderJVal (JVal.bool b) ++ ['\n', cbChar])))) hs
  have h2 : parseEntry ('\n' :: ' ' :: ' ' :: dqChar :: ("last_keyword_found".data ++
      (dqChar :: ':' :: ' ' :: (renderJVal (JVal.bool b) ++ ['\n', cbChar])))) =
      some ((keyLKF, JVal.bool b), ['\n', cbChar]) := parseEntry_kwEntry b ['\n', cbChar]
  simp only [parseEntriesAux, h1, h2, skipWs_comma, skipWs_nl, skipWs_sp, skipWs_dq,
             skipWs_cb]
  simp +decide

/-- C8: writing the logical state with `save_state` and reading it back with
`load_state` plus the `.get` extractions reproduces the same logical state
(the optional fingerprint is a hex digest, so its characters need no JSON
escaping). -/
theorem stateFile_roundTrip (h : Option (List Char)) (b : Bool)
    (hhex : ∀ s, h = some s → ∀ c ∈ s, c ∈ "0123456789abcdef".data) :
    parseStateFile (saveStateFile h b) = some (h, b) := by
  rcases h with _ | s
  · cases b <;> decide
  · have hs : ∀ c ∈ s, c ≠ dqChar := by
      intro c hc
      have hmem := hhex s rfl c hc
      have hd : ∀ d ∈ "0123456789abcdef".data, d ≠ dqChar := by decide
      exact hd c hmem
    have hR : saveStateFile (some s) b =
        obChar :: '\n' :: ' ' :: ' ' :: dqChar :: ("last_hash".data ++
          (dqChar :: ':' :: ' ' :: (dqChar :: (s ++ (dqChar :: ',' :: '\n' :: ' ' :: ' ' ::
            dqChar :: ("last_keyword_found".data ++
              (dqChar :: ':' :: ' ' :: (renderJVal (JVal.bool b) ++ ['\n', cbChar])))))))) := by
      simp [saveStateFile, renderStateJson, entriesOf, renderEntry, renderJVal,
            joinSep, keyLastHash, keyLKF]
    rw [hR]
    have hD := parseEntriesAux_two 0 s b hs
    generalize hJ : ("last_hash".data ++
        (dqChar :: ':' :: ' ' :: (dqChar :: (s ++ (dqChar :: ',' :: '\n' :: ' ' :: ' ' ::
          dqChar :: ("last_keyword_found".data ++
            (dqChar :: ':' :: ' ' :: (renderJVal (JVal.bool b) ++ ['\n', cbChar])))))))) = J
      at hD ⊢
    simp only [parseStateFile, parseObj, skipWs_ob, skipWs_nl, skipWs_sp, skipWs_dq]
    simp only [if_true]
    rw [if_neg (by decide : ¬(dqChar = cbChar))]
    rw [parseEntriesAux_mono _ _ _ _ hD (by simp only [List.length_cons]; omega)]
    simp +decide [lookupLast, keyLastHash, keyLKF, skipWs]

/-- The C8 hypothesis and conclusion at a concrete input. -/
theorem stateFile_roundTrip_witness :
    (∀ s, (some "ab12cd".data : Option (List Char)) = some s →
       ∀ c ∈ s, c ∈ "0123456789abcdef".data) ∧
    parseStateFile (saveStateFile (some "ab12cd".data) true) =
      some (some "ab12cd".data, true) := by
  constructor
  · intro s hsome
    injection hsome with he
    subst he
    decide
  · exact stateFile_roundTrip (some "ab12cd".data) true
      (by intro s hsome; injection hsome with he; subst he; decide)
